import Mathlib

/-!
# GoFastCrud: verification of the spec against the source

Shallow embedding of the repository's two source files:

* `core/crud/controller_crud.go` — the generic CRUD controller
  (`Create`, `GetById`, `Update`, `Delete`, `BatchCreate`, `BatchUpdate`,
  `BatchDelete`), including its identifier-decoding logic;
* the swagger generator (`RegisterEntityWithVersion`, `GetAllSwagger`,
  `mergeSwaggers`, `generateSchema`, `getFieldSchema`).

Go maps are modelled as association lists `List (String × α)` with
Go-map assignment semantics (`mapAssign`: replace the binding if the key is
present, otherwise append), and Go map lookup as first-match lookup
(`lookupA`).  Go's dynamic type assertions are modelled explicitly, with a
`panicked` outcome for a failed unchecked assertion.
-/

namespace GoFastCrud

/-! ## Go map model -/

/-- Go map read `m[k]`: the binding for `k`, if present. -/
def lookupA {α : Type} (m : List (String × α)) (k : String) : Option α :=
  (m.find? (fun p => p.1 = k)).map (fun p => p.2)

/-- Go map assignment `m[k] = v`: replace the binding if `k` is present,
otherwise append a new binding. -/
def mapAssign {α : Type} (m : List (String × α)) (k : String) (v : α) :
    List (String × α) :=
  if m.any (fun p => p.1 = k) then
    m.map (fun p => if p.1 = k then (k, v) else p)
  else m ++ [(k, v)]

/-- The keys of a Go map. -/
def keysA {α : Type} (m : List (String × α)) : List String :=
  m.map (fun p => p.1)

/-- Lookup returning the LAST binding for `k` (the binding that survives when
an association list with possibly duplicated keys is poured into a Go map by
successive assignments). -/
def lookupLastA {α : Type} (m : List (String × α)) (k : String) : Option α :=
  lookupA m.reverse k

/-- Left-biased choice on `Option` (Go: keep the first non-missing value). -/
def oget {α : Type} : Option α → Option α → Option α
  | some a, _ => some a
  | none, b => b

/-- Splice (Go `for k, v := range src { dst[k] = v }`): assign every binding
of `src` into `dst`. -/
def spliceGo {α : Type} (dst src : List (String × α)) : List (String × α) :=
  src.foldl (fun m p => mapAssign m p.1 p.2) dst

/-- Guarded splice (Go `if _, ok := dst[k]; !ok { dst[k] = v }`): assign only
the bindings whose key is absent. -/
def spliceIfAbsent {α : Type} (dst src : List (String × α)) :
    List (String × α) :=
  src.foldl (fun m p => if m.any (fun q => q.1 = p.1) then m
                        else mapAssign m p.1 p.2) dst

/-! Basic lemmas about the map model. -/

theorem lookupA_nil {α : Type} (k : String) : lookupA ([] : List (String × α)) k = none := rfl

theorem lookupA_cons {α : Type} (p : String × α) (m : List (String × α)) (k : String) :
    lookupA (p :: m) k = if p.1 = k then some p.2 else lookupA m k := by
  simp only [lookupA, List.find?]
  by_cases h : p.1 = k
  · simp [h]
  · simp [h]

theorem lookupA_append {α : Type} (m₁ m₂ : List (String × α)) (k : String) :
    lookupA (m₁ ++ m₂) k = oget (lookupA m₁ k) (lookupA m₂ k) := by
  induction m₁ with
  | nil => simp [lookupA_nil, oget]
  | cons p m ih =>
      rw [List.cons_append, lookupA_cons, lookupA_cons]
      by_cases h : p.1 = k
      · simp [h, oget]
      · simp [h, ih]

theorem oget_assoc {α : Type} (a b c : Option α) :
    oget (oget a b) c = oget a (oget b c) := by
  cases a <;> simp [oget]

theorem oget_none_right {α : Type} (a : Option α) : oget a none = a := by
  cases a <;> simp [oget]

theorem lookupLastA_append {α : Type} (m₁ m₂ : List (String × α)) (k : String) :
    lookupLastA (m₁ ++ m₂) k = oget (lookupLastA m₂ k) (lookupLastA m₁ k) := by
  simp [lookupLastA, List.reverse_append, lookupA_append]

theorem lookupA_eq_none_iff {α : Type} (m : List (String × α)) (k : String) :
    lookupA m k = none ↔ k ∉ keysA m := by
  induction m with
  | nil => simp [lookupA_nil, keysA]
  | cons p m ih =>
      rw [lookupA_cons]
      by_cases h : p.1 = k
      · rw [if_pos h]
        simp only [keysA, List.map_cons, List.mem_cons]
        constructor
        · intro hc; exact absurd hc (by simp)
        · intro hc; exact absurd (Or.inl h.symm) hc
      · rw [if_neg h, ih]
        simp only [keysA, List.map_cons, List.mem_cons]
        constructor
        · intro hm hc
          rcases hc with hc | hc
          · exact h hc.symm
          · exact hm hc
        · intro hm hc; exact hm (Or.inr hc)

theorem any_key_iff {α : Type} (m : List (String × α)) (k : String) :
    (m.any (fun p => p.1 = k)) = true ↔ k ∈ keysA m := by
  simp [List.any_eq_true, keysA]

/-- Replacing every binding keyed `k` by `(k, v)` in an association list:
lookups at other keys are unchanged; the lookup at `k` becomes `v` exactly
when some binding for `k` exists. -/
theorem lookupA_replaceKey {α : Type} (m : List (String × α)) (k k' : String) (v : α) :
    lookupA (m.map (fun p => if p.1 = k then (k, v) else p)) k'
      = if k = k' then (if m.any (fun p => p.1 = k) then some v else none)
        else lookupA m k' := by
  induction m with
  | nil =>
      simp only [List.map_nil, List.any_nil, lookupA_nil]
      by_cases h : k = k' <;> simp [h]
  | cons p m ih =>
      by_cases hp : p.1 = k
      · by_cases hkk : k = k' <;>
          simp [List.map_cons, lookupA_cons, List.any_cons, hp, hkk, ih]
      · by_cases hkk : k = k'
        · subst hkk
          rw [List.map_cons, lookupA_cons,
              if_neg (show ¬ ((if p.1 = k then (k, v) else p).1 = k) by simp [hp]),
              ih, if_pos rfl, List.any_cons,
              show (decide (p.1 = k) || m.any fun q => decide (q.1 = k))
                  = (m.any fun q => decide (q.1 = k)) by simp [hp], if_pos rfl]
        · simp [List.map_cons, lookupA_cons, List.any_cons, hp, hkk, ih]

theorem lookupA_mapAssign {α : Type} (m : List (String × α)) (k k' : String) (v : α) :
    lookupA (mapAssign m k v) k' = if k = k' then some v else lookupA m k' := by
  unfold mapAssign
  by_cases hmem : (m.any (fun p => p.1 = k)) = true
  · rw [if_pos hmem, lookupA_replaceKey, hmem]
    simp
  · rw [if_neg hmem, lookupA_append]
    by_cases hkk : k = k'
    · subst hkk
      have h0 : lookupA m k = none := by
        rw [lookupA_eq_none_iff]
        intro hk
        exact hmem ((any_key_iff m k).mpr hk)
      simp [h0, oget, lookupA_cons, lookupA_nil]
    · simp [lookupA_cons, lookupA_nil, hkk, oget_none_right]

/-- Lookup after a Go splice: the last binding of `src` for the key wins,
falling back to `dst`. -/
theorem lookupA_spliceGo {α : Type} (dst src : List (String × α)) (k : String) :
    lookupA (spliceGo dst src) k = oget (lookupLastA src k) (lookupA dst k) := by
  induction src generalizing dst with
  | nil => simp [spliceGo, lookupLastA, lookupA_nil, oget]
  | cons p src ih =>
      rw [spliceGo, List.foldl_cons]
      have : src.foldl (fun m p => mapAssign m p.1 p.2) (mapAssign dst p.1 p.2)
          = spliceGo (mapAssign dst p.1 p.2) src := rfl
      rw [this, ih]
      have hl : lookupLastA (p :: src) k
          = oget (lookupLastA src k) (if p.1 = k then some p.2 else none) := by
        have : (p :: src) = [p] ++ src := rfl
        rw [this, lookupLastA_append]
        congr 1
        simp [lookupLastA, lookupA_cons, lookupA_nil]
      rw [hl, lookupA_mapAssign, oget_assoc]
      congr 1
      by_cases h : p.1 = k
      · simp [h, oget]
      · have : ¬ (p.1 = k) := h
        simp [h, oget]

/-- Lookup after a guarded splice: the existing binding of `dst` wins,
falling back to the FIRST binding of `src` for the key. -/
theorem lookupA_spliceIfAbsent {α : Type} (dst src : List (String × α)) (k : String) :
    lookupA (spliceIfAbsent dst src) k = oget (lookupA dst k) (lookupA src k) := by
  induction src generalizing dst with
  | nil => simp [spliceIfAbsent, lookupA_nil, oget_none_right]
  | cons p src ih =>
      rw [spliceIfAbsent, List.foldl_cons]
      by_cases hmem : (dst.any (fun q => q.1 = p.1)) = true
      · rw [if_pos hmem]
        have : src.foldl (fun m p => if m.any (fun q => q.1 = p.1) then m
            else mapAssign m p.1 p.2) dst = spliceIfAbsent dst src := rfl
        rw [this, ih, lookupA_cons]
        by_cases hk : p.1 = k
        · have hkeys : k ∈ keysA dst := by
            rw [← hk]; exact (any_key_iff dst p.1).mp hmem
          have hdst : lookupA dst k ≠ none := by
            rw [Ne, lookupA_eq_none_iff]
            exact fun hc => hc hkeys
          rcases h : lookupA dst k with _ | v
          · exact absurd h hdst
          · simp [oget, hk, h]
        · simp [hk]
      · rw [if_neg hmem]
        have : src.foldl (fun m p => if m.any (fun q => q.1 = p.1) then m
            else mapAssign m p.1 p.2) (mapAssign dst p.1 p.2)
            = spliceIfAbsent (mapAssign dst p.1 p.2) src := rfl
        rw [this, ih, lookupA_mapAssign, lookupA_cons]
        by_cases hk : p.1 = k
        · have hdst : lookupA dst k = none := by
            rw [lookupA_eq_none_iff]
            intro hc
            exact hmem ((any_key_iff dst p.1).mpr (hk ▸ hc))
          simp [hk, hdst, oget]
        · simp [hk]

/-! ## `controller_crud.go`: the generic CRUD controller

`CrudController[T, TID]` is instantiated at a concrete entity type `T` and a
concrete identifier type `TID` (unsigned 64-bit integer or `uuid.UUID`).
The declared identifier representation of an instantiation is modelled by
`TIDKind`.  A Go dynamic type assertion `any(v).(TID)` succeeds exactly when
the dynamic type of `v` equals `TID` and panics otherwise; the `panicked`
outcome records a failed unchecked assertion. -/

/-- The declared identifier representation of a controller instantiation. -/
inductive TIDKind where
  | uuidT : TIDKind
  | uint64T : TIDKind
deriving DecidableEq

/-- A decoded identifier value. -/
inductive IDValue where
  | uuidV : List Char → IDValue
  | uintV : Nat → IDValue
deriving DecidableEq

/-- An entity (`T`): an ID field plus opaque remaining payload. -/
structure EntityT where
  id : Nat
  payload : String
deriving DecidableEq

/-- Hex digit test, as used by `uuid.Parse` on each byte. -/
def isHexChar (c : Char) : Bool :=
  c.isDigit || ('a' ≤ c && c ≤ 'f') || ('A' ≤ c && c ≤ 'F')

/-- `uuid.Parse`: accepts the canonical 36-character form
`xxxxxxxx-xxxx-xxxx-xxxx-xxxxxxxxxxxx` and the 32-hex-character form;
returns the hex characters on success. -/
def parseUUID (s : String) : Option (List Char) :=
  let cs := s.toList
  if cs.length = 36 then
    if (List.range 36).all (fun i =>
        if i = 8 ∨ i = 13 ∨ i = 18 ∨ i = 23 then cs.getD i ' ' = '-'
        else isHexChar (cs.getD i ' ')) then
      some (cs.filter (fun c => c ≠ '-'))
    else none
  else if cs.length = 32 then
    if cs.all isHexChar then some cs else none
  else none

/-- `strconv.ParseUint(s, 10, 64)`: a non-empty all-decimal-digit string whose
value fits in 64 bits. -/
def parseUint64 (s : String) : Option Nat :=
  let cs := s.toList
  if cs ≠ [] ∧ cs.all Char.isDigit then
    let n := cs.foldl (fun acc c => acc * 10 + (c.toNat - '0'.toNat)) 0
    if n < 2 ^ 64 then some n else none
  else none

/-- The observable outcome of one controller operation. -/
inductive OpResult where
  | success : EntityT → OpResult
  | successList : List EntityT → OpResult
  | successEmpty : OpResult
  | errNotFound : String → OpResult
  | errInvalidParam : String → OpResult
  | errValidation : String → OpResult
  | errBind : String → OpResult
  | errRepo : String → OpResult
  | panicked : OpResult
deriving DecidableEq

/-- Does the outcome carry the controller-originated `ErrInvalidParam` kind? -/
def OpResult.isInvalidParam : OpResult → Bool
  | .errInvalidParam _ => true
  | _ => false

/-- `GetById` (controller_crud.go:33-70).  The source checks
`if _, ok := any(idTID).(TID); ok` — asserting the zero value of `TID` back to
`TID`, which always succeeds — so the `else` branches returning
`invalid id parameter type` are unreachable, and the subsequent unchecked
assertion `any(idUUID).(TID)` (resp. `any(idInt).(TID)`) panics whenever the
declared `TID` is not `uuid.UUID` (resp. not `uint64`). -/
def getById (kind : TIDKind) (idStr : String)
    (findById : IDValue → Except String (Option EntityT)) : OpResult :=
  if idStr = "" then .errNotFound "missing id parameter"
  else
    let proceed : IDValue → OpResult := fun idv =>
      match findById idv with
      | .error msg => .errRepo msg
      | .ok none => .errNotFound "record not found"
      | .ok (some e) => .success e
    match parseUUID idStr with
    | some u =>
        if True then
          match kind with
          | .uuidT => proceed (.uuidV u)
          | .uint64T => .panicked
        else .errInvalidParam "invalid id parameter type"
    | none =>
        match parseUint64 idStr with
        | some n =>
            if True then
              match kind with
              | .uint64T => proceed (.uintV n)
              | .uuidT => .panicked
            else .errInvalidParam "invalid id parameter type"
        | none => .errInvalidParam "invalid id parameter"

/-- Modelled from the spec: `SetID` of `ICrudEntity` (its implementation is
not under src/) sets the entity's ID field. -/
def setID (e : EntityT) (n : Nat) : EntityT := { e with id := n }

/-- `Update` (controller_crud.go:93-121): bind body, validate, parse the path
id strictly as `uint64` (returning `ErrNotFound "invalid id format"` on parse
failure), overwrite the entity's ID via `entity.SetID(any(idInt).(TID))`
(an unchecked assertion: panics unless `TID` is `uint64`), then persist.
The second component is the entity handed to `Repository.Update`, if any. -/
def update (kind : TIDKind) (idStr : String) (body : Except String EntityT)
    (validate : EntityT → Option String)
    (repoUpdate : EntityT → Option String) : OpResult × Option EntityT :=
  if idStr = "" then (.errNotFound "missing id parameter", none)
  else
    match body with
    | .error msg => (.errBind msg, none)
    | .ok entity =>
        match validate entity with
        | some msg => (.errValidation msg, none)
        | none =>
            match parseUint64 idStr with
            | none => (.errNotFound "invalid id format", none)
            | some n =>
                match kind with
                | .uint64T =>
                    let e := setID entity n
                    match repoUpdate e with
                    | some msg => (.errRepo msg, some e)
                    | none => (.success e, some e)
                | .uuidT => (.panicked, none)

/-- `Delete` (controller_crud.go:124-141): parse the path id strictly as
`uint64` (returning `ErrNotFound "invalid id format"` on parse failure), then
`DeleteById(ctx, any(idInt).(TID), opts)` — again an unchecked assertion. -/
def deleteOp (kind : TIDKind) (idStr : String)
    (repoDelete : Nat → Option String) : OpResult :=
  if idStr = "" then .errNotFound "missing id parameter"
  else
    match parseUint64 idStr with
    | none => .errNotFound "invalid id format"
    | some n =>
        match kind with
        | .uint64T =>
            match repoDelete n with
            | some msg => .errRepo msg
            | none => .successEmpty
        | .uuidT => .panicked

/-- Modelled from the spec: `Repository.Transaction` (its implementation is
not under src/) executes `fn` against one atomic unit of work, committing only
if `fn` returns no error and rolling back (state unchanged) otherwise. -/
def transactionGo (st : List EntityT)
    (fn : List EntityT → Except String (List EntityT)) :
    Option String × List EntityT :=
  match fn st with
  | .ok st' => (none, st')
  | .error msg => (some msg, st)

/-- `BatchCreate` (controller_crud.go:144-167): bind an array, validate each
entity in order returning the first failure, then run the repository batch
insert inside a transaction.  The second component is the persisted state. -/
def batchCreate (body : Except String (List EntityT))
    (validate : EntityT → Option String)
    (repoBatchCreate : List EntityT → List EntityT → Except String (List EntityT))
    (st : List EntityT) : OpResult × List EntityT :=
  match body with
  | .error msg => (.errBind msg, st)
  | .ok entities =>
      match entities.findSome? validate with
      | some msg => (.errValidation msg, st)
      | none =>
          match transactionGo st (fun s => repoBatchCreate entities s) with
          | (some msg, st') => (.errRepo msg, st')
          | (none, st') => (.successList entities, st')

/-- `BatchUpdate` (controller_crud.go:170-193): same shape as `BatchCreate`. -/
def batchUpdate (body : Except String (List EntityT))
    (validate : EntityT → Option String)
    (repoBatchUpdate : List EntityT → List EntityT → Except String (List EntityT))
    (st : List EntityT) : OpResult × List EntityT :=
  match body with
  | .error msg => (.errBind msg, st)
  | .ok entities =>
      match entities.findSome? validate with
      | some msg => (.errValidation msg, st)
      | none =>
          match transactionGo st (fun s => repoBatchUpdate entities s) with
          | (some msg, st') => (.errRepo msg, st')
          | (none, st') => (.successList entities, st')

/-- `BatchDelete` (controller_crud.go:196-216): bind an array of IDs, reject
an empty array with `ErrInvalidParam "no ids provided"`, then run the batch
delete inside a transaction. -/
def batchDelete (body : Except String (List IDValue))
    (repoBatchDelete : List IDValue → List EntityT → Except String (List EntityT))
    (st : List EntityT) : OpResult × List EntityT :=
  match body with
  | .error msg => (.errBind msg, st)
  | .ok ids =>
      if ids.length = 0 then (.errInvalidParam "no ids provided", st)
      else
        match transactionGo st (fun s => repoBatchDelete ids s) with
        | (some msg, st') => (.errRepo msg, st')
        | (none, st') => (.successEmpty, st')

/-! ## Claims about the controller -/

/-- A repository stub whose `FindById` always reports no record. -/
def stubFind : IDValue → Except String (Option EntityT) := fun _ => .ok none

/-- C1: the claim says a UUID-shaped identifier on an integer-ID controller
instantiation (and a numeric identifier on a UUID-ID instantiation) yields
`InvalidParameter` and that the decoder never panics.  The code's guard
`any(idTID).(TID)` is tautological, so the unchecked assertion that follows
panics on exactly these representation mismatches; only the
parseable-as-neither case yields `InvalidParameter` as claimed.  This theorem
evaluates the code at the failing inputs. -/
theorem C1_getById_mismatch_panics :
    getById .uint64T "550e8400-e29b-41d4-a716-446655440000" stubFind = .panicked
    ∧ getById .uuidT "12345" stubFind = .panicked
    ∧ getById .uint64T "zzz" stubFind = .errInvalidParam "invalid id parameter" := by
  refine ⟨?_, ?_, ?_⟩ <;> rfl

/-- First validation failure in a list: if everything before `e` validates and
`e` fails with `msg`, the in-order scan reports `msg`. -/
theorem findSome?_first_failure {α β : Type} (pre post : List α) (e : α)
    (f : α → Option β) (msg : β)
    (h1 : ∀ x ∈ pre, f x = none) (h2 : f e = some msg) :
    (pre ++ e :: post).findSome? f = some msg := by
  induction pre with
  | nil => simp [List.findSome?, h2]
  | cons a pre ih =>
      have ha : f a = none := h1 a (by simp)
      rw [List.cons_append]
      simp only [List.findSome?, ha]
      exact ih (fun x hx => h1 x (by simp [hx]))

/-- C2: for each batch operation, a failure of any single item — the first
failing validation, or a repository error inside the transaction — aborts the
whole batch: the failing item's error is returned and the persisted state is
unchanged (no partial persistence). -/
theorem C2_batch_abort_no_partial_persistence
    (pre post : List EntityT) (e : EntityT) (validate : EntityT → Option String)
    (repoBC repoBU : List EntityT → List EntityT → Except String (List EntityT))
    (repoBD : List IDValue → List EntityT → Except String (List EntityT))
    (ids : List IDValue) (st : List EntityT) (msg : String)
    (h1 : ∀ x ∈ pre, validate x = none) (h2 : validate e = some msg) :
    batchCreate (.ok (pre ++ e :: post)) validate repoBC st = (.errValidation msg, st)
    ∧ batchUpdate (.ok (pre ++ e :: post)) validate repoBU st = (.errValidation msg, st)
    ∧ (∀ entities, entities.findSome? validate = none →
        repoBC entities st = .error msg →
        batchCreate (.ok entities) validate repoBC st = (.errRepo msg, st))
    ∧ (∀ entities, entities.findSome? validate = none →
        repoBU entities st = .error msg →
        batchUpdate (.ok entities) validate repoBU st = (.errRepo msg, st))
    ∧ (ids ≠ [] → repoBD ids st = .error msg →
        batchDelete (.ok ids) repoBD st = (.errRepo msg, st)) := by
  refine ⟨?_, ?_, ?_, ?_, ?_⟩
  · simp [batchCreate, findSome?_first_failure pre post e validate msg h1 h2]
  · simp [batchUpdate, findSome?_first_failure pre post e validate msg h1 h2]
  · intro entities hv hr
    simp [batchCreate, hv, transactionGo, hr]
  · intro entities hv hr
    simp [batchUpdate, hv, transactionGo, hr]
  · intro hne hr
    have : ids.length ≠ 0 := fun hc => hne (List.length_eq_zero.mp hc)
    simp [batchDelete, this, transactionGo, hr]

/-- Witness for C2: a `BatchCreate` of three entities where the second fails
validation returns that failure and persists zero entities. -/
theorem C2_batch_abort_no_partial_persistence_witness :
    batchCreate (.ok [⟨1, "a"⟩, ⟨2, "b"⟩, ⟨3, "c"⟩])
        (fun e => if e.id = 2 then some "second invalid" else none)
        (fun es s => .ok (s ++ es)) [] = (.errValidation "second invalid", []) :=
  (C2_batch_abort_no_partial_persistence [⟨1, "a"⟩] [⟨3, "c"⟩] ⟨2, "b"⟩
      (fun e => if e.id = 2 then some "second invalid" else none)
      (fun es s => .ok (s ++ es)) (fun es s => .ok (s ++ es))
      (fun _ s => .ok s) [] [] "second invalid"
      (by decide) (by decide)).1

/-- C8 counterexample: an `Update` and a `Delete` whose path identifier `"abc"`
is present but unparseable return the `NotFound` kind (message
`invalid id format`), not `InvalidParameter` as claimed. -/
theorem C8_counterexample :
    (update .uint64T "abc" (.ok ⟨0, ""⟩) (fun _ => none) (fun _ => none)).1
      = .errNotFound "invalid id format"
    ∧ ((update .uint64T "abc" (.ok ⟨0, ""⟩) (fun _ => none)
        (fun _ => none)).1).isInvalidParam = false
    ∧ deleteOp .uint64T "abc" (fun _ => none) = .errNotFound "invalid id format"
    ∧ (deleteOp .uint64T "abc" (fun _ => none)).isInvalidParam = false := by
  refine ⟨?_, ?_, ?_, ?_⟩ <;> rfl

/-- C8 amended: for `Update` and `Delete`, a path identifier that is present
but not parseable as an unsigned integer yields an error of kind `NotFound`
with message `invalid id format` (not `InvalidParameter`). -/
theorem C8_amended_unparseable_id_notfound
    (kind : TIDKind) (idStr : String)
    (h1 : idStr ≠ "") (h2 : parseUint64 idStr = none) :
    (∀ (e : EntityT) (validate : EntityT → Option String)
       (repoUpdate : EntityT → Option String), validate e = none →
       (update kind idStr (.ok e) validate repoUpdate).1
         = .errNotFound "invalid id format")
    ∧ (∀ repoDelete : Nat → Option String,
       deleteOp kind idStr repoDelete = .errNotFound "invalid id format") := by
  constructor
  · intro e validate repoUpdate hv
    simp [update, h1, hv, h2]
  · intro repoDelete
    simp [deleteOp, h1, h2]

/-- Witness for C8 (amended): evaluated at the identifier `"abc"`. -/
theorem C8_amended_unparseable_id_notfound_witness :
    (update .uint64T "abc" (.ok ⟨7, "p"⟩) (fun _ => none) (fun _ => none)).1
      = .errNotFound "invalid id format"
    ∧ deleteOp .uint64T "abc" (fun _ => none) = .errNotFound "invalid id format" :=
  ⟨(C8_amended_unparseable_id_notfound .uint64T "abc" (by decide) (by rfl)).1
      ⟨7, "p"⟩ (fun _ => none) (fun _ => none) rfl,
   (C8_amended_unparseable_id_notfound .uint64T "abc" (by decide) (by rfl)).2
      (fun _ => none)⟩

/-- C9 counterexample: `BatchCreate` with an empty entity array is silently
accepted (it returns success, not `InvalidParameter`). -/
theorem C9_counterexample :
    batchCreate (.ok []) (fun _ => none) (fun es s => .ok (s ++ es)) []
      = (.successList [], [])
    ∧ ((batchCreate (.ok []) (fun _ => none) (fun es s => .ok (s ++ es))
        []).1).isInvalidParam = false := by
  refine ⟨?_, ?_⟩ <;> rfl

/-- C9 amended: only `BatchDelete` rejects an empty batch with
`InvalidParameter` (`no ids provided`); `BatchCreate` and `BatchUpdate`
accept an empty array and never originate `InvalidParameter` for it. -/
theorem C9_amended_only_batchDelete_rejects_empty :
    (∀ (repoBD : List IDValue → List EntityT → Except String (List EntityT))
       (st : List EntityT),
       (batchDelete (.ok []) repoBD st).1 = .errInvalidParam "no ids provided")
    ∧ (∀ (validate : EntityT → Option String)
         (repoBC : List EntityT → List EntityT → Except String (List EntityT))
         (st : List EntityT),
         ((batchCreate (.ok []) validate repoBC st).1).isInvalidParam = false)
    ∧ (∀ (validate : EntityT → Option String)
         (repoBU : List EntityT → List EntityT → Except String (List EntityT))
         (st : List EntityT),
         ((batchUpdate (.ok []) validate repoBU st).1).isInvalidParam = false) := by
  refine ⟨fun repoBD st => rfl, ?_, ?_⟩
  · intro validate repoBC st
    simp only [batchCreate, List.findSome?]
    rcases h : transactionGo st (fun s => repoBC [] s) with ⟨msg, st'⟩
    cases msg <;> simp [OpResult.isInvalidParam]
  · intro validate repoBU st
    simp only [batchUpdate, List.findSome?]
    rcases h : transactionGo st (fun s => repoBU [] s) with ⟨msg, st'⟩
    cases msg <;> simp [OpResult.isInvalidParam]

/-- C10: whenever the `Update` path identifier parses as an unsigned integer
and the flow reaches the repository, the entity handed to `Repository.Update`
is the decoded body entity with its ID field overwritten by the parsed path
identifier — the body's own ID value is never persisted. -/
theorem C10_update_overwrites_body_id
    (idStr : String) (e : EntityT) (validate : EntityT → Option String)
    (repoUpdate : EntityT → Option String) (n : Nat)
    (h1 : idStr ≠ "") (h2 : validate e = none) (h3 : parseUint64 idStr = some n) :
    (update .uint64T idStr (.ok e) validate repoUpdate).2 = some (setID e n)
    ∧ (setID e n).id = n := by
  constructor
  · simp only [update, if_neg h1, h2, h3]
    cases repoUpdate (setID e n) <;> rfl
  · rfl

/-- Witness for C10: the body carries ID 999 but the repository receives the
path identifier 5. -/
theorem C10_update_overwrites_body_id_witness :
    (update .uint64T "5" (.ok ⟨999, "x"⟩) (fun _ => none) (fun _ => none)).2
      = some (setID ⟨999, "x"⟩ 5)
    ∧ (setID (⟨999, "x"⟩ : EntityT) 5).id = 5 :=
  C10_update_overwrites_body_id "5" ⟨999, "x"⟩ (fun _ => none) (fun _ => none) 5
    (by decide) rfl (by rfl)

/-! ## The swagger generator: structural type model

`reflect.Type` values reachable from entity declarations, restricted to the
kinds `generateSchema`/`getFieldSchema` distinguish.  A struct field carries
its declared name, type, anonymous flag and the `json`, `binding`,
`description` and `example` tags. -/

mutual
inductive GoType where
  | tyString : GoType
  | tyInt : GoType
  | tyInt64 : GoType
  | tyUint : GoType
  | tyUint64 : GoType
  | tyFloat32 : GoType
  | tyFloat64 : GoType
  | tyBool : GoType
  | tyStruct : String → List GoField → GoType
  | tySlice : GoType → GoType
  | tyPtr : GoType → GoType
  | tyOther : GoType

inductive GoField where
  | mk : String → GoType → Bool → String → String → String → String → GoField
end

/-- The declared field name. -/
def GoField.name : GoField → String
  | .mk n _ _ _ _ _ _ => n

/-- The field's type. -/
def GoField.ty : GoField → GoType
  | .mk _ t _ _ _ _ _ => t

/-- `field.Anonymous`. -/
def GoField.anonymous : GoField → Bool
  | .mk _ _ a _ _ _ _ => a

/-- `field.Tag.Get("json")`. -/
def GoField.jsonTag : GoField → String
  | .mk _ _ _ j _ _ _ => j

/-- `field.Tag.Get("binding")`. -/
def GoField.bindingTag : GoField → String
  | .mk _ _ _ _ b _ _ => b

/-- `field.Tag.Get("description")`. -/
def GoField.descTag : GoField → String
  | .mk _ _ _ _ _ d _ => d

/-- `field.Tag.Get("example")`. -/
def GoField.exampleTag : GoField → String
  | .mk _ _ _ _ _ _ e => e

/-- `spec.Schema`, restricted to the props the generator populates:
type, format, description, example, properties, required, items. -/
inductive Schema where
  | mk : List String → String → String → String → List (String × Schema) →
      List String → Option Schema → Schema

/-- `Schema.Type`. -/
def Schema.type : Schema → List String
  | .mk t _ _ _ _ _ _ => t

/-- `Schema.Format`. -/
def Schema.format : Schema → String
  | .mk _ f _ _ _ _ _ => f

/-- `Schema.Description`. -/
def Schema.description : Schema → String
  | .mk _ _ d _ _ _ _ => d

/-- `Schema.Example`. -/
def Schema.example : Schema → String
  | .mk _ _ _ e _ _ _ => e

/-- `Schema.Properties`. -/
def Schema.properties : Schema → List (String × Schema)
  | .mk _ _ _ _ p _ _ => p

/-- `Schema.Required`. -/
def Schema.required : Schema → List String
  | .mk _ _ _ _ _ r _ => r

/-- `Schema.Items`. -/
def Schema.items : Schema → Option Schema
  | .mk _ _ _ _ _ _ i => i

/-- The resolved (externally visible) field name: the portion of the `json`
tag before the first comma if the tag is non-empty, else the declared name. -/
def resolveName (f : GoField) : String :=
  if f.jsonTag = "" then f.name
  else ((f.jsonTag.splitOn ",").headD f.name)

mutual
/-- `generateSchema` (the swagger generator): pointer → pointee; slice →
array-of-items; non-struct → bare `{object}`; struct → fold over the fields
in declaration order. -/
def generateSchema : GoType → Schema
  | .tyPtr t => generateSchema t
  | .tySlice t => .mk ["array"] "" "" "" [] [] (some (generateSchema t))
  | .tyStruct _ fields =>
      processFields fields (.mk ["object"] "" "" "" [] [] none)
  | _ => .mk ["object"] "" "" "" [] [] none

/-- The struct-field loop of `generateSchema`, in declaration order. -/
def processFields : List GoField → Schema → Schema
  | [], s => s
  | f :: rest, s => processFields rest (processField f s)

/-- One iteration of the struct-field loop: an anonymous field has its
generated properties spliced into the parent (its `required` list is NOT
copied); a field whose `json` tag is `"-"` is skipped; otherwise the field
schema is assigned under the resolved name and, when the `binding` tag equals
`"required"`, the resolved name is appended to `required`. -/
def processField : GoField → Schema → Schema
  | .mk n t anon jt bt dt et, s =>
      let f := GoField.mk n t anon jt bt dt et
      if anon then
        let emb := generateSchema t
        .mk s.type s.format s.description s.example
          (spliceGo s.properties emb.properties) s.required s.items
      else if jt = "-" then s
      else
        let nm := resolveName f
        let fs := getFieldSchema f
        let props := mapAssign s.properties nm fs
        let req := if bt = "required" then s.required ++ [nm] else s.required
        .mk s.type s.format s.description s.example props req s.items

/-- `getFieldSchema`: start from an empty schema carrying the `description`
and `example` tags, then switch on the field's kind.  For a struct field the
schema is REPLACED by the recursive result (dropping description/example),
except `time.Time` which maps to `{string, date-time}`; likewise a pointer
field is replaced by the schema of the pointee. -/
def getFieldSchema : GoField → Schema
  | .mk _ t _ _ _ dt et =>
      let s0 : Schema := .mk [] "" (if dt ≠ "" then dt else "")
        (if et ≠ "" then et else "") [] [] none
      match t with
      | .tyString => .mk ["string"] s0.format s0.description s0.example [] [] none
      | .tyInt => .mk ["integer"] s0.format s0.description s0.example [] [] none
      | .tyInt64 => .mk ["integer"] "int64" s0.description s0.example [] [] none
      | .tyUint => .mk ["integer"] s0.format s0.description s0.example [] [] none
      | .tyUint64 => .mk ["integer"] "int64" s0.description s0.example [] [] none
      | .tyFloat32 => .mk ["number"] s0.format s0.description s0.example [] [] none
      | .tyFloat64 => .mk ["number"] "double" s0.description s0.example [] [] none
      | .tyBool => .mk ["boolean"] s0.format s0.description s0.example [] [] none
      | .tyStruct nm flds =>
          if nm = "time.Time" then
            .mk ["string"] "date-time" s0.description s0.example [] [] none
          else generateSchema (.tyStruct nm flds)
      | .tyPtr t' => generateSchema t'
      | .tySlice t' =>
          .mk ["array"] s0.format s0.description s0.example [] []
            (some (generateSchema t'))
      | .tyOther => s0
end

/-! ## The swagger generator: documents and merging -/

/-- `spec.Tag` (name + description). -/
structure TagG where
  name : String
  description : String
deriving DecidableEq

/-- `spec.Operation`, restricted to props the merge never inspects. -/
structure OperationG where
  summary : String
  description : String
deriving DecidableEq

/-- `spec.PathItem`: at most one operation per HTTP method. -/
structure PathItemG where
  get : Option OperationG
  post : Option OperationG
  put : Option OperationG
  delete : Option OperationG
deriving DecidableEq

/-- `spec.Swagger`, restricted to the props this repository populates. -/
structure SwaggerDoc where
  swaggerV : String
  title : String
  descr : String
  version : String
  host : String
  basePath : String
  schemes : List String
  consumes : List String
  produces : List String
  pathsL : List (String × PathItemG)
  definitions : List (String × Schema)
  tags : List TagG

/-- The per-version skeleton document `GetAllSwagger` creates on first sight
of a version. -/
def freshVersionDoc (version : String) : SwaggerDoc where
  swaggerV := "2.0"
  title := "Fast CRUD API (" ++ version ++ ")"
  descr := "Auto-generated API documentation for version " ++ version
  version := version
  host := ""
  basePath := "/api/" ++ version
  schemes := ["http"]
  consumes := ["application/json"]
  produces := ["application/json"]
  pathsL := []
  definitions := []
  tags := []

/-- The tag merge of `GetAllSwagger`: `tagMap` is built from the existing
tags ONCE, then every incoming tag whose name is not in `tagMap` is
appended. -/
def mergeTagsGo (ex nw : List TagG) : List TagG :=
  ex ++ nw.filter (fun t => ! ex.any (fun e => e.name = t.name))

/-- One iteration of `GetAllSwagger`'s merge body: paths assigned
(last-writer-wins), definitions inserted only if absent (first-writer-wins),
tags appended when their name is new. -/
def mergeIntoVersionDoc (base sw : SwaggerDoc) : SwaggerDoc :=
  { base with
    pathsL := spliceGo base.pathsL sw.pathsL
    definitions := spliceIfAbsent base.definitions sw.definitions
    tags := mergeTagsGo base.tags sw.tags }

/-- `strings.Split(s, "_")` on the underlying character list (the separator
used by `GetAllSwagger` is the single character `'_'`). -/
def splitUnderscore : List Char → List (List Char)
  | [] => [[]]
  | c :: rest =>
      match splitUnderscore rest with
      | [] => [[]]
      | h :: t => if c = '_' then [] :: h :: t else (c :: h) :: t

/-- Version extraction from a registry key: split on `"_"`, skip if fewer
than two parts, else take the last part. -/
def versionOfKey (path : String) : Option String :=
  let parts := splitUnderscore path.toList
  if parts.length < 2 then none else some ((parts.getLastD []).asString)

/-- One iteration of `GetAllSwagger`'s outer loop: extract the version from
the key (skipping malformed keys), fetch or create the per-version document,
merge this document into it, and store it back. -/
def gasStep (vd : List (String × SwaggerDoc)) (kv : String × SwaggerDoc) :
    List (String × SwaggerDoc) :=
  match versionOfKey kv.1 with
  | none => vd
  | some version =>
      let base := match lookupA vd version with
        | some d => d
        | none => freshVersionDoc version
      mapAssign vd version (mergeIntoVersionDoc base kv.2)

/-- `GetAllSwagger`: fold over the stored documents, grouping by the version
extracted from each key. -/
def getAllSwagger (docs : List (String × SwaggerDoc)) :
    List (String × SwaggerDoc) :=
  docs.foldl gasStep []

/-- The fixed seed document of `mergeSwaggers`. -/
def mergedInitDoc : SwaggerDoc where
  swaggerV := "2.0"
  title := "Fast CRUD API"
  descr := "Auto-generated API documentation"
  version := "1.0"
  host := "localhost:8080"
  basePath := "/api/v1"
  schemes := ["http"]
  consumes := ["application/json"]
  produces := ["application/json"]
  pathsL := []
  definitions := []
  tags := []

/-- One iteration of `mergeSwaggers`' loop: paths assigned
(last-writer-wins), definitions assigned UNCONDITIONALLY (also
last-writer-wins), tags appended with NO deduplication. -/
def msStep (m : SwaggerDoc) (kv : String × SwaggerDoc) : SwaggerDoc :=
  { m with
    pathsL := spliceGo m.pathsL kv.2.pathsL
    definitions := spliceGo m.definitions kv.2.definitions
    tags := m.tags ++ kv.2.tags }

/-- `mergeSwaggers`: the full-merge variant. -/
def mergeSwaggers (docs : List (String × SwaggerDoc)) : SwaggerDoc :=
  docs.foldl msStep mergedInitDoc

/-! ### `RegisterEntityWithVersion`: the definitions table -/

/-- A route descriptor, restricted to what the definitions collection reads:
the optional sample request/response types. -/
structure APIRouteG where
  path : String
  method : String
  request : Option GoType
  response : Option GoType

/-- `if t.Kind() == reflect.Ptr { t = t.Elem() }`: one pointer dereference. -/
def derefPtr : GoType → GoType
  | .tyPtr t => t
  | t => t

/-- `reflect.Type.Name()`: the declared type name (empty for unnamed
composite types such as slices and pointers). -/
def typeName : GoType → String
  | .tyStruct n _ => n
  | .tyString => "string"
  | .tyInt => "int"
  | .tyInt64 => "int64"
  | .tyUint => "uint"
  | .tyUint64 => "uint64"
  | .tyFloat32 => "float32"
  | .tyFloat64 => "float64"
  | .tyBool => "bool"
  | .tySlice _ => ""
  | .tyPtr _ => ""
  | .tyOther => ""

/-- Adding one sample request/response type to the definitions table:
dereference a pointer, resolve the name, and assign (overwriting any earlier
binding) unless the name is empty or equals the entity's name. -/
def addSample (entityName : String) (d : List (String × Schema)) :
    Option GoType → List (String × Schema)
  | none => d
  | some t =>
      let t' := derefPtr t
      let n := typeName t'
      if n ≠ "" ∧ n ≠ entityName then mapAssign d n (generateSchema t') else d

/-- The definitions assembly of `RegisterEntityWithVersion`: seed with the
entity's own schema under its type name, then fold over the route
descriptors, adding each route's sample request type and then its sample
response type.  (The source iterates the path-grouped routes; this model
fixes one linearization of that iteration.) -/
def collectDefinitions (entityName : String) (entityType : GoType)
    (routes : List APIRouteG) : List (String × Schema) :=
  routes.foldl
    (fun d r => addSample entityName (addSample entityName d r.request) r.response)
    (mapAssign [] entityName (generateSchema entityType))

/-! ## Characterizations of `generateSchema` on structs -/

/-- The resolved name a field contributes to `required`, if any: only a
non-anonymous, non-skipped field whose `binding` tag equals `"required"`
contributes. -/
def reqName (f : GoField) : Option String :=
  if f.anonymous then none
  else if f.jsonTag = "-" then none
  else if f.bindingTag = "required" then some (resolveName f) else none

theorem processField_required (f : GoField) (s : Schema) :
    (processField f s).required = s.required ++ (reqName f).toList := by
  cases f with
  | mk n t anon jt bt dt et =>
      cases anon with
      | true => simp [processField, reqName, GoField.anonymous, Schema.required]
      | false =>
          by_cases hj : jt = "-"
          · simp [processField, reqName, GoField.anonymous, GoField.jsonTag, hj,
              Schema.required]
          · by_cases hb : bt = "required"
            · simp [processField, reqName, GoField.anonymous, GoField.jsonTag,
                GoField.bindingTag, hj, hb, Schema.required]
            · simp [processField, reqName, GoField.anonymous, GoField.jsonTag,
                GoField.bindingTag, hj, hb, Schema.required]

/-- The `required` list of a processed struct is the initial list followed by
the in-declaration-order resolved names of the required-tagged direct
fields.  Embedded (anonymous) fields contribute nothing. -/
theorem processFields_required (l : List GoField) (s : Schema) :
    (processFields l s).required = s.required ++ l.filterMap reqName := by
  induction l generalizing s with
  | nil => simp [processFields]
  | cons f rest ih =>
      rw [processFields, ih, processField_required, List.filterMap_cons]
      cases h : reqName f <;> simp [h]

theorem generateSchema_struct_eq (nm : String) (fields : List GoField) :
    generateSchema (.tyStruct nm fields)
      = processFields fields (.mk ["object"] "" "" "" [] [] none) := by
  simp [generateSchema]

/-- The schema value a field contributes to the parent's `properties` at key
`k`, if any: an anonymous field contributes its generated schema's property
at `k` (the binding that survives the splice), a skipped field contributes
nothing, and a direct field contributes its field schema when its resolved
name is `k`. -/
def contribValue (f : GoField) (k : String) : Option Schema :=
  if f.anonymous then lookupLastA (generateSchema f.ty).properties k
  else if f.jsonTag = "-" then none
  else if resolveName f = k then some (getFieldSchema f) else none

theorem lookupA_processField (f : GoField) (s : Schema) (k : String) :
    lookupA (processField f s).properties k
      = oget (contribValue f k) (lookupA s.properties k) := by
  cases f with
  | mk n t anon jt bt dt et =>
      cases anon with
      | true =>
          simp [processField, contribValue, GoField.anonymous, GoField.ty,
            Schema.properties, lookupA_spliceGo]
      | false =>
          by_cases hj : jt = "-"
          · simp [processField, contribValue, GoField.anonymous, GoField.jsonTag,
              hj, oget]
          · simp only [processField, contribValue, GoField.anonymous,
              GoField.jsonTag, Bool.false_eq_true, if_false, if_neg hj,
              Schema.properties, lookupA_mapAssign]
            by_cases hr : resolveName (GoField.mk n t false jt bt dt et) = k
            · simp [hr, oget]
            · simp [hr, oget]

theorem findSome?_singleton_oget {α β : Type} (x : α) (f : α → Option β) :
    [x].findSome? f = f x := by
  cases h : f x <;> simp [List.findSome?, h]

theorem findSome?_cons_oget {α β : Type} (x : α) (l : List α) (f : α → Option β) :
    (x :: l).findSome? f = oget (f x) (l.findSome? f) := by
  cases h : f x <;> simp [List.findSome?, h, oget]

theorem findSome?_append_oget {α β : Type} (l₁ l₂ : List α) (f : α → Option β) :
    (l₁ ++ l₂).findSome? f = oget (l₁.findSome? f) (l₂.findSome? f) := by
  induction l₁ with
  | nil => simp [List.findSome?, oget]
  | cons a l ih =>
      rw [List.cons_append, findSome?_cons_oget, findSome?_cons_oget, ih,
        oget_assoc]

theorem findSome?_eq_none_of_all {α β : Type} (l : List α) (f : α → Option β)
    (h : ∀ x ∈ l, f x = none) : l.findSome? f = none := by
  induction l with
  | nil => rfl
  | cons a l ih =>
      rw [findSome?_cons_oget, h a (by simp)]
      exact ih (fun x hx => h x (by simp [hx]))

theorem findSome?_ne_none_of_mem {α β : Type} (l : List α) (f : α → Option β)
    (x : α) (hx : x ∈ l) (h : f x ≠ none) : l.findSome? f ≠ none := by
  induction l with
  | nil => simp at hx
  | cons a l ih =>
      rw [findSome?_cons_oget]
      rcases List.mem_cons.mp hx with rfl | hmem
      · rcases hfa : f x with _ | v
        · exact absurd hfa h
        · simp [oget]
      · rcases hfa : f a with _ | v
        · simpa [oget] using ih hmem
        · simp [oget]

/-- Property lookup through the struct-field loop: the LAST field (in
declaration order) contributing the key wins, falling back to the initial
schema's properties. -/
theorem lookupA_processFields (l : List GoField) (s : Schema) (k : String) :
    lookupA (processFields l s).properties k
      = oget (l.reverse.findSome? (fun f => contribValue f k))
          (lookupA s.properties k) := by
  induction l generalizing s with
  | nil => simp [processFields, List.findSome?, oget]
  | cons f rest ih =>
      rw [processFields, ih, lookupA_processField, List.reverse_cons,
        findSome?_append_oget, findSome?_singleton_oget, oget_assoc]

/-- Property lookup on a generated struct schema. -/
theorem generateSchema_struct_lookup (nm : String) (fields : List GoField)
    (k : String) :
    lookupA (generateSchema (.tyStruct nm fields)).properties k
      = fields.reverse.findSome? (fun f => contribValue f k) := by
  rw [generateSchema_struct_eq, lookupA_processFields]
  simp [Schema.properties, lookupA_nil, oget_none_right]

/-- The `required` list of a generated struct schema. -/
theorem generateSchema_struct_required (nm : String) (fields : List GoField) :
    (generateSchema (.tyStruct nm fields)).required = fields.filterMap reqName := by
  rw [generateSchema_struct_eq, processFields_required]
  simp [Schema.required]

theorem lookupLastA_eq_none_iff {α : Type} (m : List (String × α)) (k : String) :
    lookupLastA m k = none ↔ k ∉ keysA m := by
  rw [lookupLastA, lookupA_eq_none_iff]
  simp [keysA, List.mem_map, List.mem_reverse]

/-! ## Claims about `generateSchema` -/

/-- A struct with a required-tagged field. -/
def exBase : GoType :=
  .tyStruct "Base" [GoField.mk "ID" .tyUint64 false "" "required" "" ""]

/-- A struct embedding `exBase` anonymously. -/
def exParentEmb : GoType := .tyStruct "Parent" [GoField.mk "Base" exBase true "" "" "" ""]

/-- C5 counterexample: the embedded struct's required-tagged field `ID` is
spliced into the parent's properties, but the parent's `required` list is
empty — the required marker of an embedded field never reaches the parent,
so its name does NOT appear exactly once. -/
theorem C5_counterexample :
    "ID" ∈ keysA (generateSchema exParentEmb).properties
    ∧ (generateSchema exParentEmb).required = []
    ∧ "ID" ∉ (generateSchema exParentEmb).required := by
  have hbase : lookupA (generateSchema exBase).properties "ID"
      = some (getFieldSchema (GoField.mk "ID" .tyUint64 false "" "required" "" "")) := by
    unfold exBase
    rw [generateSchema_struct_lookup, List.reverse_cons, List.reverse_nil,
      List.nil_append, findSome?_singleton_oget]
    simp [contribValue, GoField.anonymous, GoField.jsonTag, resolveName,
      GoField.name]
  have hkeyB : "ID" ∈ keysA (generateSchema exBase).properties := by
    by_contra hc
    rw [← lookupA_eq_none_iff] at hc
    rw [hbase] at hc
    exact Option.noConfusion hc
  have hkey : "ID" ∈ keysA (generateSchema exParentEmb).properties := by
    have hlast : lookupLastA (generateSchema exBase).properties "ID" ≠ none := by
      rw [Ne, lookupLastA_eq_none_iff]
      simp [hkeyB]
    have hcontrib : contribValue (GoField.mk "Base" exBase true "" "" "" "") "ID" ≠ none := by
      simpa [contribValue, GoField.anonymous, GoField.ty] using hlast
    have hlook : lookupA (generateSchema exParentEmb).properties "ID" ≠ none := by
      unfold exParentEmb
      rw [generateSchema_struct_lookup]
      exact findSome?_ne_none_of_mem _ _ _ (by simp) hcontrib
    by_contra hc
    exact hlook ((lookupA_eq_none_iff _ _).mpr hc)
  have hreq : (generateSchema exParentEmb).required = [] := by
    unfold exParentEmb
    rw [generateSchema_struct_required]
    simp [reqName, GoField.anonymous]
  exact ⟨hkey, hreq, by rw [hreq]; simp⟩

/-- C5 amended: the `required` list consists exactly of the resolved names
of the directly declared (non-embedded, non-skipped) fields tagged
`binding:"required"`, in declaration order — embedded structs' required
markers are dropped; and when those resolved names are distinct, each such
field's resolved name appears exactly once, regardless of declaration
order. -/
theorem C5_amended_required_direct_fields_only (nm : String)
    (fields : List GoField) (hnd : (fields.filterMap reqName).Nodup) :
    (generateSchema (.tyStruct nm fields)).required = fields.filterMap reqName
    ∧ ∀ f ∈ fields, f.anonymous = false → f.jsonTag ≠ "-" →
        f.bindingTag = "required" →
        ((generateSchema (.tyStruct nm fields)).required).count (resolveName f)
          = 1 := by
  refine ⟨generateSchema_struct_required nm fields, ?_⟩
  intro f hf hanon hjt hbt
  rw [generateSchema_struct_required]
  have hreq : reqName f = some (resolveName f) := by
    simp [reqName, hanon, hjt, hbt]
  have hmem : resolveName f ∈ fields.filterMap reqName :=
    List.mem_filterMap.mpr ⟨f, hf, hreq⟩
  exact List.count_eq_one_of_mem hnd hmem

/-- Witness for C5 (amended): two required fields, each counted once. -/
theorem C5_amended_required_direct_fields_only_witness :
    ((generateSchema (.tyStruct "U"
        [GoField.mk "A" .tyString false "" "required" "" "",
         GoField.mk "B" .tyInt false "" "required" "" ""])).required).count
      (resolveName (GoField.mk "A" .tyString false "" "required" "" "")) = 1 :=
  (C5_amended_required_direct_fields_only "U"
      [GoField.mk "A" .tyString false "" "required" "" "",
       GoField.mk "B" .tyInt false "" "required" "" ""]
      (by simp [reqName, resolveName, GoField.anonymous, GoField.jsonTag,
        GoField.bindingTag, GoField.name])).2
    (GoField.mk "A" .tyString false "" "required" "" "")
    (by simp) rfl (by simp [GoField.jsonTag]) rfl

/-- A base struct with two plain fields, for embedding. -/
def exBase2 : GoType :=
  .tyStruct "Base" [GoField.mk "ID" .tyUint64 false "" "" "" "",
    GoField.mk "Name" .tyString false "" "" "" ""]

/-- An anonymous field embedding `exBase2`. -/
def exFieldEmb : GoField := GoField.mk "Base" exBase2 true "" "" "" ""

/-- A sibling field colliding with the embedded `Name` property. -/
def exFieldName : GoField := GoField.mk "Name" .tyInt false "" "" "" ""

/-- C6: embedded/anonymous fields are flattened: (1) every property of an
embedded field's schema is a property of the parent; (2) every parent
property key is contributed by some field — directly or from an embedded
schema — so an embedded field's own name, when no field contributes it, is
never a property key; (3) on a key collision the LAST contributing field in
declaration order wins. -/
theorem C6_embedded_flattening (nm : String) (fields : List GoField) :
    (∀ f ∈ fields, f.anonymous = true →
      ∀ k, k ∈ keysA (generateSchema f.ty).properties →
        k ∈ keysA (generateSchema (.tyStruct nm fields)).properties)
    ∧ (∀ f ∈ fields, f.anonymous = true →
        (∀ f' ∈ fields, contribValue f' f.name = none) →
        f.name ∉ keysA (generateSchema (.tyStruct nm fields)).properties)
    ∧ (∀ (pre post : List GoField) (f : GoField) (k : String),
        fields = pre ++ f :: post →
        contribValue f k ≠ none →
        (∀ f' ∈ post, contribValue f' k = none) →
        lookupA (generateSchema (.tyStruct nm fields)).properties k
          = contribValue f k) := by
  refine ⟨?_, ?_, ?_⟩
  · intro f hf hanon k hk
    have hc : contribValue f k ≠ none := by
      simp only [contribValue, hanon, if_pos]
      rw [Ne, lookupLastA_eq_none_iff]
      simp [hk]
    have : lookupA (generateSchema (.tyStruct nm fields)).properties k ≠ none := by
      rw [generateSchema_struct_lookup]
      exact findSome?_ne_none_of_mem _ _ f (List.mem_reverse.mpr hf) hc
    by_contra hmem
    exact this (lookupA_eq_none_iff _ _ |>.mpr hmem)
  · intro f hf hanon hall
    rw [← lookupA_eq_none_iff, generateSchema_struct_lookup]
    exact findSome?_eq_none_of_all _ _
      (fun x hx => hall x (List.mem_reverse.mp hx))
  · intro pre post f k hsplit hcf hpost
    subst hsplit
    rw [generateSchema_struct_lookup]
    rw [show (pre ++ f :: post).reverse = (post.reverse ++ [f]) ++ pre.reverse by
      simp]
    rw [findSome?_append_oget, findSome?_append_oget, findSome?_singleton_oget]
    rw [findSome?_eq_none_of_all post.reverse _
      (fun x hx => hpost x (List.mem_reverse.mp hx))]
    rcases hv : contribValue f k with _ | v
    · exact absurd hv hcf
    · simp [oget]

/-- Witness for C6: the embedded `ID` surfaces on the parent; the embedded
field's own name `Base` is not a key; the sibling `Name` declared after the
embedded struct wins the collision. -/
theorem C6_embedded_flattening_witness :
    "ID" ∈ keysA (generateSchema (.tyStruct "Parent" [exFieldEmb, exFieldName])).properties
    ∧ "Base" ∉ keysA (generateSchema (.tyStruct "Parent" [exFieldEmb, exFieldName])).properties
    ∧ lookupA (generateSchema (.tyStruct "Parent" [exFieldEmb, exFieldName])).properties "Name"
        = contribValue exFieldName "Name" := by
  obtain ⟨h1, h2, h3⟩ := C6_embedded_flattening "Parent" [exFieldEmb, exFieldName]
  have hBname : lookupA (generateSchema exBase2).properties "ID"
      = some (getFieldSchema (GoField.mk "ID" .tyUint64 false "" "" "" "")) := by
    unfold exBase2
    rw [generateSchema_struct_lookup]
    rw [show ([GoField.mk "ID" GoType.tyUint64 false "" "" "" "",
        GoField.mk "Name" GoType.tyString false "" "" "" ""]).reverse
      = [GoField.mk "Name" GoType.tyString false "" "" "" "",
         GoField.mk "ID" GoType.tyUint64 false "" "" "" ""] from by rfl]
    rw [findSome?_cons_oget, findSome?_singleton_oget]
    simp [contribValue, GoField.anonymous, GoField.jsonTag, resolveName,
      GoField.name, oget]
  have hBbase : lookupA (generateSchema exBase2).properties "Base" = none := by
    unfold exBase2
    rw [generateSchema_struct_lookup]
    rw [show ([GoField.mk "ID" GoType.tyUint64 false "" "" "" "",
        GoField.mk "Name" GoType.tyString false "" "" "" ""]).reverse
      = [GoField.mk "Name" GoType.tyString false "" "" "" "",
         GoField.mk "ID" GoType.tyUint64 false "" "" "" ""] from by rfl]
    rw [findSome?_cons_oget, findSome?_singleton_oget]
    simp [contribValue, GoField.anonymous, GoField.jsonTag, resolveName,
      GoField.name, oget]
  refine ⟨?_, ?_, ?_⟩
  · refine h1 exFieldEmb (by simp) rfl "ID" ?_
    have : lookupA (generateSchema exFieldEmb.ty).properties "ID" ≠ none := by
      rw [show exFieldEmb.ty = exBase2 from rfl, hBname]
      exact Option.noConfusion
    by_contra hc
    exact this ((lookupA_eq_none_iff _ _).mpr
      (by simpa [exFieldEmb, GoField.ty] using hc))
  · refine h2 exFieldEmb (by simp) rfl ?_
    intro f' hf'
    have hsplit : f' = exFieldEmb ∨ f' = exFieldName := by simpa using hf'
    have hnm : exFieldEmb.name = "Base" := rfl
    rcases hsplit with rfl | rfl
    · rw [hnm]
      have hnotkey : "Base" ∉ keysA (generateSchema exBase2).properties :=
        (lookupA_eq_none_iff _ _).mp hBbase
      simp only [contribValue, exFieldEmb, GoField.anonymous, GoField.ty,
        if_pos]
      rw [lookupLastA_eq_none_iff]
      exact hnotkey
    · rw [hnm]
      simp [exFieldName, contribValue, GoField.anonymous, GoField.jsonTag,
        GoField.name, resolveName]
  · refine h3 [exFieldEmb] [] exFieldName "Name" rfl ?_ (by simp)
    simp [exFieldName, contribValue, GoField.anonymous, GoField.jsonTag,
      resolveName, GoField.name]

/-! ## Characterizations of the document merges -/

/-- All path bindings of a list of documents, in document order. -/
def flatPaths (sws : List SwaggerDoc) : List (String × PathItemG) :=
  (sws.map SwaggerDoc.pathsL).flatten

/-- All definition bindings of a list of documents, in document order. -/
def flatDefs (sws : List SwaggerDoc) : List (String × Schema) :=
  (sws.map SwaggerDoc.definitions).flatten

/-- All tags of a list of documents, in document order. -/
def flatTags (sws : List SwaggerDoc) : List TagG :=
  (sws.map SwaggerDoc.tags).flatten

/-- The names of a tag list. -/
def tagNames (l : List TagG) : List String := l.map TagG.name

/-- The first tag with the given name. -/
def findTag (l : List TagG) (n : String) : Option TagG :=
  l.find? (fun t => t.name = n)

/-- Reference fold: append each tag whose name has not been seen. -/
def dedupTags (acc l : List TagG) : List TagG :=
  l.foldl (fun a t => if a.any (fun e => e.name = t.name) then a else a ++ [t]) acc

theorem findTag_nil (n : String) : findTag [] n = none := rfl

theorem findTag_cons (t : TagG) (l : List TagG) (n : String) :
    findTag (t :: l) n = if t.name = n then some t else findTag l n := by
  simp only [findTag, List.find?]
  by_cases h : t.name = n
  · simp [h]
  · simp [h]

theorem findTag_append (l₁ l₂ : List TagG) (n : String) :
    findTag (l₁ ++ l₂) n = oget (findTag l₁ n) (findTag l₂ n) := by
  induction l₁ with
  | nil => simp [findTag_nil, oget]
  | cons t l ih =>
      rw [List.cons_append, findTag_cons, findTag_cons]
      by_cases h : t.name = n
      · simp [h, oget]
      · simp [h, ih]

theorem findTag_ne_none_iff (l : List TagG) (n : String) :
    findTag l n ≠ none ↔ (l.any (fun t => t.name = n)) = true := by
  induction l with
  | nil => simp [findTag_nil]
  | cons t l ih =>
      rw [findTag_cons, List.any_cons]
      by_cases h : t.name = n
      · simp [h]
      · simp [h, ih]

theorem mergeTagsGo_eq_dedupTags (ex nw : List TagG)
    (h : (tagNames nw).Nodup) : mergeTagsGo ex nw = dedupTags ex nw := by
  induction nw generalizing ex with
  | nil => simp [mergeTagsGo, dedupTags]
  | cons t nw ih =>
      have hcons : (∀ x ∈ nw, ¬ x.name = t.name) ∧ (List.map TagG.name nw).Nodup := by
        simpa [tagNames] using h
      have hnd : (tagNames nw).Nodup := hcons.2
      have ht : ∀ x ∈ nw, x.name ≠ t.name := hcons.1
      by_cases hmem : (ex.any (fun e => e.name = t.name)) = true
      · have hd : dedupTags ex (t :: nw) = dedupTags ex nw := by
          rw [dedupTags, List.foldl_cons, if_pos hmem]; rfl
        rw [hd, mergeTagsGo, List.filter_cons, if_neg (by simp [hmem])]
        exact (ih ex hnd).trans rfl
      · have hd : dedupTags ex (t :: nw) = dedupTags (ex ++ [t]) nw := by
          rw [dedupTags, List.foldl_cons, if_neg hmem]; rfl
        have hstep : mergeTagsGo (ex ++ [t]) nw = dedupTags (ex ++ [t]) nw :=
          ih (ex ++ [t]) hnd
        have hfilter : nw.filter (fun x => ! ex.any (fun e => e.name = x.name))
            = nw.filter (fun x => ! (ex ++ [t]).any (fun e => e.name = x.name)) :=
          List.filter_congr (fun x hx => by
            have hxt : t.name ≠ x.name := (ht x hx).symm
            simp [List.any_append, hxt])
        rw [hd, ← hstep, mergeTagsGo, mergeTagsGo, List.filter_cons,
          if_pos (by simp [hmem]), hfilter]
        simp

theorem dedupTags_append (acc : List TagG) (l₁ l₂ : List TagG) :
    dedupTags (dedupTags acc l₁) l₂ = dedupTags acc (l₁ ++ l₂) := by
  simp [dedupTags, List.foldl_append]

theorem findTag_dedupTags (acc l : List TagG) (n : String) :
    findTag (dedupTags acc l) n = oget (findTag acc n) (findTag l n) := by
  induction l generalizing acc with
  | nil => simp [dedupTags, findTag_nil, oget_none_right]
  | cons t l ih =>
      rw [dedupTags, List.foldl_cons]
      by_cases hmem : (acc.any (fun e => e.name = t.name)) = true
      · rw [if_pos hmem]
        have : (List.foldl (fun a t => if a.any (fun e => e.name = t.name)
            then a else a ++ [t]) acc l) = dedupTags acc l := rfl
        rw [this, ih, findTag_cons]
        by_cases h : t.name = n
        · have hne : findTag acc n ≠ none := by
            rw [findTag_ne_none_iff]
            rcases List.any_eq_true.mp hmem with ⟨e, he, hen⟩
            exact List.any_eq_true.mpr ⟨e, he, by
              simp only [decide_eq_true_eq] at hen ⊢
              rw [hen, h]⟩
          rcases hv : findTag acc n with _ | w
          · exact absurd hv hne
          · simp [h, oget]
        · simp [h]
      · rw [if_neg hmem]
        have : (List.foldl (fun a t => if a.any (fun e => e.name = t.name)
            then a else a ++ [t]) (acc ++ [t]) l) = dedupTags (acc ++ [t]) l := rfl
        rw [this, ih, findTag_append, oget_assoc, findTag_cons]
        congr 1
        rw [findTag_cons, findTag_nil]
        by_cases h : t.name = n
        · simp [h, oget]
        · simp [h, oget]

theorem tagNames_dedupTags_nodup (acc l : List TagG)
    (h : (tagNames acc).Nodup) : (tagNames (dedupTags acc l)).Nodup := by
  induction l generalizing acc with
  | nil => simpa [dedupTags]
  | cons t l ih =>
      rw [dedupTags, List.foldl_cons]
      by_cases hmem : (acc.any (fun e => e.name = t.name)) = true
      · rw [if_pos hmem]
        exact ih acc h
      · rw [if_neg hmem]
        apply ih
        have hnot : ∀ x ∈ acc, ¬ x.name = t.name := by
          intro e he hc
          exact hmem (List.any_eq_true.mpr ⟨e, he, by simp [hc]⟩)
        simpa [tagNames, List.nodup_append] using ⟨h, hnot⟩

theorem foldMergeInto_pathsL (sws : List SwaggerDoc) (b : SwaggerDoc) (k : String) :
    lookupA ((sws.foldl mergeIntoVersionDoc b).pathsL) k
      = oget (lookupLastA (flatPaths sws) k) (lookupA b.pathsL k) := by
  induction sws generalizing b with
  | nil => simp [flatPaths, lookupLastA, lookupA_nil, oget]
  | cons sw sws ih =>
      rw [List.foldl_cons, ih]
      have hm : (mergeIntoVersionDoc b sw).pathsL = spliceGo b.pathsL sw.pathsL := rfl
      rw [hm, lookupA_spliceGo]
      rw [show flatPaths (sw :: sws) = sw.pathsL ++ flatPaths sws by
        simp [flatPaths]]
      rw [lookupLastA_append, oget_assoc]

theorem foldMergeInto_definitions (sws : List SwaggerDoc) (b : SwaggerDoc) (k : String) :
    lookupA ((sws.foldl mergeIntoVersionDoc b).definitions) k
      = oget (lookupA b.definitions k) (lookupA (flatDefs sws) k) := by
  induction sws generalizing b with
  | nil => simp [flatDefs, lookupA_nil, oget_none_right]
  | cons sw sws ih =>
      rw [List.foldl_cons, ih]
      have hm : (mergeIntoVersionDoc b sw).definitions
          = spliceIfAbsent b.definitions sw.definitions := rfl
      rw [hm, lookupA_spliceIfAbsent, oget_assoc]
      rw [show flatDefs (sw :: sws) = sw.definitions ++ flatDefs sws by
        simp [flatDefs]]
      rw [lookupA_append]

theorem foldMergeInto_tags (sws : List SwaggerDoc) (b : SwaggerDoc)
    (h : ∀ sw ∈ sws, (tagNames sw.tags).Nodup) :
    (sws.foldl mergeIntoVersionDoc b).tags = dedupTags b.tags (flatTags sws) := by
  induction sws generalizing b with
  | nil => simp [flatTags, dedupTags]
  | cons sw sws ih =>
      rw [List.foldl_cons, ih _ (fun x hx => h x (by simp [hx]))]
      have hm : (mergeIntoVersionDoc b sw).tags = mergeTagsGo b.tags sw.tags := rfl
      rw [hm, mergeTagsGo_eq_dedupTags _ _ (h sw (by simp)), dedupTags_append]
      rw [show flatTags (sw :: sws) = sw.tags ++ flatTags sws by simp [flatTags]]

theorem mapAssign_singleton_replace {α : Type} (v : String) (d d' : α) :
    mapAssign [(v, d)] v d' = [(v, d')] := by
  simp [mapAssign]

theorem gasStep_nil_key (kv : String × SwaggerDoc) (v : String)
    (hk : versionOfKey kv.1 = some v) :
    gasStep [] kv = [(v, mergeIntoVersionDoc (freshVersionDoc v) kv.2)] := by
  simp [gasStep, hk, lookupA_nil, mapAssign]

theorem gasStep_singleton (v : String) (d : SwaggerDoc) (kv : String × SwaggerDoc)
    (hk : versionOfKey kv.1 = some v) :
    gasStep [(v, d)] kv = [(v, mergeIntoVersionDoc d kv.2)] := by
  simp [gasStep, hk, lookupA_cons, mapAssign_singleton_replace]

theorem foldl_gasStep_singleton (v : String) (d : SwaggerDoc)
    (docs : List (String × SwaggerDoc))
    (hkeys : ∀ kv ∈ docs, versionOfKey kv.1 = some v) :
    docs.foldl gasStep [(v, d)]
      = [(v, docs.foldl (fun b kv => mergeIntoVersionDoc b kv.2) d)] := by
  induction docs generalizing d with
  | nil => rfl
  | cons kv docs ih =>
      rw [List.foldl_cons, gasStep_singleton v d kv (hkeys kv (by simp)),
        List.foldl_cons]
      exact ih _ (fun x hx => hkeys x (by simp [hx]))

/-- When every stored key carries the same version `v`, `GetAllSwagger` is a
single-entry table: `v` mapped to the fold of all documents into the fresh
per-version skeleton. -/
theorem getAllSwagger_single_version (v : String) (kv₀ : String × SwaggerDoc)
    (rest : List (String × SwaggerDoc))
    (hkeys : ∀ kv ∈ kv₀ :: rest, versionOfKey kv.1 = some v) :
    getAllSwagger (kv₀ :: rest)
      = [(v, ((kv₀ :: rest).map Prod.snd).foldl mergeIntoVersionDoc
            (freshVersionDoc v))] := by
  rw [getAllSwagger, List.foldl_cons, gasStep_nil_key kv₀ v (hkeys kv₀ (by simp)),
    foldl_gasStep_singleton v _ rest (fun x hx => hkeys x (by simp [hx]))]
  rw [List.map_cons, List.foldl_cons, List.foldl_map]

/-- C4: for a set of registered documents all stored under the same version
`v` (with per-document tag names distinct, as `RegisterEntityWithVersion`
guarantees by emitting exactly one tag per document), the merged-by-version
document contains: the union of all their paths with last-writer-wins on a
path collision; the union of their definitions with first-writer-wins on a
definition-name collision (so no definitions are lost when names do not
collide); and their tags deduplicated by name, keeping the first
occurrence (hence its description). -/
theorem C4_merged_by_version (v : String) (kv₀ : String × SwaggerDoc)
    (rest : List (String × SwaggerDoc))
    (hkeys : ∀ kv ∈ kv₀ :: rest, versionOfKey kv.1 = some v)
    (htags : ∀ kv ∈ kv₀ :: rest, (tagNames kv.2.tags).Nodup) :
    ∃ m, lookupA (getAllSwagger (kv₀ :: rest)) v = some m
      ∧ (∀ k, lookupA m.pathsL k
          = lookupLastA (flatPaths ((kv₀ :: rest).map Prod.snd)) k)
      ∧ (∀ k, lookupA m.definitions k
          = lookupA (flatDefs ((kv₀ :: rest).map Prod.snd)) k)
      ∧ (tagNames m.tags).Nodup
      ∧ (∀ n, findTag m.tags n
          = findTag (flatTags ((kv₀ :: rest).map Prod.snd)) n) := by
  have htags' : ∀ sw ∈ (kv₀ :: rest).map Prod.snd, (tagNames sw.tags).Nodup := by
    intro sw hsw
    rcases List.mem_map.mp hsw with ⟨kv, hkv, rfl⟩
    exact htags kv hkv
  have htagsEq := foldMergeInto_tags ((kv₀ :: rest).map Prod.snd)
    (freshVersionDoc v) htags'
  rw [show (freshVersionDoc v).tags = [] from rfl] at htagsEq
  refine ⟨((kv₀ :: rest).map Prod.snd).foldl mergeIntoVersionDoc
    (freshVersionDoc v), ?_, ?_, ?_, ?_, ?_⟩
  · rw [getAllSwagger_single_version v kv₀ rest hkeys, lookupA_cons]
    simp
  · intro k
    rw [foldMergeInto_pathsL]
    rw [show (freshVersionDoc v).pathsL = [] from rfl]
    simp [lookupA_nil, oget_none_right]
  · intro k
    rw [foldMergeInto_definitions]
    rw [show (freshVersionDoc v).definitions = [] from rfl]
    simp [lookupA_nil, oget]
  · rw [htagsEq]
    exact tagNames_dedupTags_nodup [] _ (by simp [tagNames])
  · intro n
    rw [htagsEq, findTag_dedupTags]
    simp [findTag_nil, oget]

/-- A sample schema (an integer). -/
def exSchemaInt : Schema := .mk ["integer"] "" "" "" [] [] none

/-- A sample schema (a string) of a different shape. -/
def exSchemaStr : Schema := .mk ["string"] "" "" "" [] [] none

/-- A sample path item. -/
def exPIu : PathItemG := ⟨some ⟨"List", ""⟩, none, none, none⟩

/-- A registered per-entity document for `User` under version `v1`. -/
def exDocU : SwaggerDoc where
  swaggerV := ""
  title := "User API"
  descr := "API documentation for User"
  version := "v1"
  host := ""
  basePath := "/api/v1"
  schemes := []
  consumes := []
  produces := []
  pathsL := [("/users", exPIu)]
  definitions := [("User", exSchemaInt)]
  tags := [⟨"User", "Operations about User"⟩]

/-- A registered per-entity document for `Order` under version `v1`. -/
def exDocO : SwaggerDoc where
  swaggerV := ""
  title := "Order API"
  descr := "API documentation for Order"
  version := "v1"
  host := ""
  basePath := "/api/v1"
  schemes := []
  consumes := []
  produces := []
  pathsL := [("/orders", exPIu)]
  definitions := [("Order", exSchemaStr)]
  tags := [⟨"Order", "Operations about Order"⟩]

/-- Witness for C4: two entities registered under version `v1`. -/
theorem C4_merged_by_version_witness :
    ∃ m, lookupA (getAllSwagger [("users_v1", exDocU), ("orders_v1", exDocO)]) "v1"
        = some m
      ∧ (∀ k, lookupA m.pathsL k
          = lookupLastA (flatPaths ([("users_v1", exDocU),
              ("orders_v1", exDocO)].map Prod.snd)) k)
      ∧ (∀ k, lookupA m.definitions k
          = lookupA (flatDefs ([("users_v1", exDocU),
              ("orders_v1", exDocO)].map Prod.snd)) k)
      ∧ (tagNames m.tags).Nodup
      ∧ (∀ n, findTag m.tags n
          = findTag (flatTags ([("users_v1", exDocU),
              ("orders_v1", exDocO)].map Prod.snd)) n) :=
  C4_merged_by_version "v1" ("users_v1", exDocU) [("orders_v1", exDocO)]
    (by decide) (by decide)

theorem foldl_msStep_pathsL (docs : List (String × SwaggerDoc)) (b : SwaggerDoc)
    (k : String) :
    lookupA ((docs.foldl msStep b).pathsL) k
      = oget (lookupLastA (flatPaths (docs.map Prod.snd)) k) (lookupA b.pathsL k) := by
  induction docs generalizing b with
  | nil => simp [flatPaths, lookupLastA, lookupA_nil, oget]
  | cons kv docs ih =>
      rw [List.foldl_cons, ih]
      have hm : (msStep b kv).pathsL = spliceGo b.pathsL kv.2.pathsL := rfl
      rw [hm, lookupA_spliceGo]
      rw [show flatPaths ((kv :: docs).map Prod.snd)
          = kv.2.pathsL ++ flatPaths (docs.map Prod.snd) by simp [flatPaths]]
      rw [lookupLastA_append, oget_assoc]

theorem foldl_msStep_definitions (docs : List (String × SwaggerDoc))
    (b : SwaggerDoc) (k : String) :
    lookupA ((docs.foldl msStep b).definitions) k
      = oget (lookupLastA (flatDefs (docs.map Prod.snd)) k)
          (lookupA b.definitions k) := by
  induction docs generalizing b with
  | nil => simp [flatDefs, lookupLastA, lookupA_nil, oget]
  | cons kv docs ih =>
      rw [List.foldl_cons, ih]
      have hm : (msStep b kv).definitions = spliceGo b.definitions kv.2.definitions := rfl
      rw [hm, lookupA_spliceGo]
      rw [show flatDefs ((kv :: docs).map Prod.snd)
          = kv.2.definitions ++ flatDefs (docs.map Prod.snd) by simp [flatDefs]]
      rw [lookupLastA_append, oget_assoc]

theorem foldl_msStep_tags (docs : List (String × SwaggerDoc)) (b : SwaggerDoc) :
    (docs.foldl msStep b).tags = b.tags ++ flatTags (docs.map Prod.snd) := by
  induction docs generalizing b with
  | nil => simp [flatTags]
  | cons kv docs ih =>
      rw [List.foldl_cons, ih]
      have hm : (msStep b kv).tags = b.tags ++ kv.2.tags := rfl
      rw [hm]
      rw [show flatTags ((kv :: docs).map Prod.snd)
          = kv.2.tags ++ flatTags (docs.map Prod.snd) by simp [flatTags]]
      simp

/-- C3 amended: the full-merge variant folds paths with last-writer-wins like
the per-version merge, but — unlike it — folds definitions with
LAST-writer-wins (unconditional assignment, not first-writer-wins) and
CONCATENATES the tag lists without any deduplication by name.  It therefore
agrees with the per-version merge only in the absence of definition-name and
tag-name collisions. -/
theorem C3_amended_full_merge (docs : List (String × SwaggerDoc)) :
    (∀ k, lookupA (mergeSwaggers docs).pathsL k
        = lookupLastA (flatPaths (docs.map Prod.snd)) k)
    ∧ (∀ k, lookupA (mergeSwaggers docs).definitions k
        = lookupLastA (flatDefs (docs.map Prod.snd)) k)
    ∧ (mergeSwaggers docs).tags = flatTags (docs.map Prod.snd) := by
  refine ⟨fun k => ?_, fun k => ?_, ?_⟩
  · rw [mergeSwaggers, foldl_msStep_pathsL]
    rw [show mergedInitDoc.pathsL = [] from rfl]
    simp [lookupA_nil, oget_none_right]
  · rw [mergeSwaggers, foldl_msStep_definitions]
    rw [show mergedInitDoc.definitions = [] from rfl]
    simp [lookupA_nil, oget_none_right]
  · rw [mergeSwaggers, foldl_msStep_tags]
    rw [show mergedInitDoc.tags = [] from rfl]
    simp

/-- A registered document whose definition `A` and tag `E` collide with
`exDocDefs2`. -/
def exDocDefs1 : SwaggerDoc where
  swaggerV := "2.0"
  title := "A API"
  descr := ""
  version := "v1"
  host := ""
  basePath := "/a"
  schemes := []
  consumes := []
  produces := []
  pathsL := []
  definitions := [("A", exSchemaInt)]
  tags := [⟨"E", "first"⟩]

/-- A second document with the same definition name and tag name but a
different schema shape and tag description. -/
def exDocDefs2 : SwaggerDoc where
  swaggerV := "2.0"
  title := "B API"
  descr := ""
  version := "v1"
  host := ""
  basePath := "/b"
  schemes := []
  consumes := []
  produces := []
  pathsL := []
  definitions := [("A", exSchemaStr)]
  tags := [⟨"E", "second"⟩]

/-- The registry contents for the C3 counterexample. -/
def exDocsC3 : List (String × SwaggerDoc) := [("a_v1", exDocDefs1), ("b_v1", exDocDefs2)]

/-- C3 counterexample: on the same registered documents, the full-merge
variant keeps the LAST writer's definition for `A` while the merged-by-version
view keeps the FIRST writer's (and the two schemas differ), and the
full-merge tag list contains the name `E` twice (no deduplication).  So the
full merge does not compute the same fold as the per-version merge. -/
theorem C3_counterexample :
    lookupA (mergeSwaggers exDocsC3).definitions "A" = some exSchemaStr
    ∧ (lookupA (getAllSwagger exDocsC3) "v1").map
        (fun m => lookupA m.definitions "A") = some (some exSchemaInt)
    ∧ exSchemaStr ≠ exSchemaInt
    ∧ tagNames (mergeSwaggers exDocsC3).tags = ["E", "E"]
    ∧ ¬ (tagNames (mergeSwaggers exDocsC3).tags).Nodup := by
  refine ⟨rfl, rfl, ?_, rfl, ?_⟩
  · intro h
    injection h with h1
    exact absurd h1 (by decide)
  · rw [show tagNames (mergeSwaggers exDocsC3).tags = ["E", "E"] from rfl]
    decide

/-! ## Claims about `RegisterEntityWithVersion`'s definitions table -/

/-- The definitions-table binding one sample request/response value
contributes: nothing when absent, unnamed, or named like the entity;
otherwise its (resolved name, generated schema) pair. -/
def sampleEntries (entityName : String) : Option GoType → List (String × Schema)
  | none => []
  | some t =>
      let t' := derefPtr t
      let n := typeName t'
      if n ≠ "" ∧ n ≠ entityName then [(n, generateSchema t')] else []

theorem lookupA_addSample (e : String) (d : List (String × Schema))
    (o : Option GoType) (k : String) :
    lookupA (addSample e d o) k
      = oget (lookupA (sampleEntries e o) k) (lookupA d k) := by
  cases o with
  | none => simp [addSample, sampleEntries, lookupA_nil, oget]
  | some t =>
      simp only [addSample, sampleEntries]
      by_cases hg : typeName (derefPtr t) ≠ "" ∧ typeName (derefPtr t) ≠ e
      · rw [if_pos hg, if_pos hg, lookupA_mapAssign, lookupA_cons]
        by_cases hk : typeName (derefPtr t) = k
        · simp [hk, oget]
        · simp [hk, lookupA_nil, oget]
      · rw [if_neg hg, if_neg hg]
        simp [lookupA_nil, oget]

theorem lookupLastA_sampleEntries (e : String) (o : Option GoType) (k : String) :
    lookupLastA (sampleEntries e o) k = lookupA (sampleEntries e o) k := by
  cases o with
  | none => rfl
  | some t =>
      simp only [sampleEntries]
      by_cases hg : typeName (derefPtr t) ≠ "" ∧ typeName (derefPtr t) ≠ e
      · rw [if_pos hg]
        simp [lookupLastA]
      · rw [if_neg hg]
        rfl

theorem sampleEntries_key_ne (e : String) (o : Option GoType) :
    ∀ p ∈ sampleEntries e o, p.1 ≠ e := by
  cases o with
  | none => simp [sampleEntries]
  | some t =>
      simp only [sampleEntries]
      by_cases hg : typeName (derefPtr t) ≠ "" ∧ typeName (derefPtr t) ≠ e
      · rw [if_pos hg]
        intro p hp
        rcases List.mem_singleton.mp hp with rfl
        exact hg.2
      · rw [if_neg hg]
        simp

/-- Every definitions-table binding contributed by the route descriptors, in
iteration order (request before response within a route). -/
def routeSamples (entityName : String) (routes : List APIRouteG) :
    List (String × Schema) :=
  (routes.map (fun r => sampleEntries entityName r.request
      ++ sampleEntries entityName r.response)).flatten

theorem collect_fold_lookup (e : String) (routes : List APIRouteG)
    (d : List (String × Schema)) (k : String) :
    lookupA (routes.foldl
        (fun d r => addSample e (addSample e d r.request) r.response) d) k
      = oget (lookupLastA (routeSamples e routes) k) (lookupA d k) := by
  induction routes generalizing d with
  | nil => simp [routeSamples, lookupLastA, lookupA_nil, oget]
  | cons r rs ih =>
      rw [List.foldl_cons, ih, lookupA_addSample, lookupA_addSample]
      rw [show routeSamples e (r :: rs)
          = (sampleEntries e r.request ++ sampleEntries e r.response)
            ++ routeSamples e rs by simp [routeSamples]]
      rw [lookupLastA_append, lookupLastA_append, oget_assoc,
        lookupLastA_sampleEntries, lookupLastA_sampleEntries, oget_assoc]

theorem routeSamples_key_ne (e : String) (routes : List APIRouteG) :
    ∀ p ∈ routeSamples e routes, p.1 ≠ e := by
  intro p hp
  rcases List.mem_flatten.mp hp with ⟨l, hl, hpl⟩
  rcases List.mem_map.mp hl with ⟨r, _, rfl⟩
  rcases List.mem_append.mp hpl with h | h
  · exact sampleEntries_key_ne e r.request p h
  · exact sampleEntries_key_ne e r.response p h

/-- C7 amended: `definitions` is seeded with the entity's own schema under
its type name, and that seed always survives (a sample type named like the
entity is skipped); but for non-entity request/response sample types sharing
the same resolved type name, the LAST occurrence in iteration order wins —
later occurrences DO overwrite earlier ones. -/
theorem C7_amended_entity_seed_then_last_sample_wins (e : String)
    (et : GoType) (routes : List APIRouteG) :
    lookupA (collectDefinitions e et routes) e = some (generateSchema et)
    ∧ (∀ k, k ≠ e → lookupA (collectDefinitions e et routes) k
        = lookupLastA (routeSamples e routes) k) := by
  have hinit : mapAssign ([] : List (String × Schema)) e (generateSchema et)
      = [(e, generateSchema et)] := by simp [mapAssign]
  constructor
  · rw [collectDefinitions, collect_fold_lookup, hinit]
    have hnone : lookupLastA (routeSamples e routes) e = none := by
      rw [lookupLastA_eq_none_iff]
      intro hc
      rcases List.mem_map.mp hc with ⟨p, hp, hpe⟩
      exact routeSamples_key_ne e routes p hp hpe
    rw [hnone, lookupA_cons]
    simp [oget]
  · intro k hk
    rw [collectDefinitions, collect_fold_lookup, hinit, lookupA_cons]
    rw [if_neg (fun hc : e = k => hk hc.symm)]
    simp [lookupA_nil, oget_none_right]

/-- A first sample request type named `Req` with a field `A`. -/
def exReq1 : GoType := .tyStruct "Req" [GoField.mk "A" .tyString false "" "" "" ""]

/-- A second, differently shaped sample request type with the same name. -/
def exReq2 : GoType := .tyStruct "Req" []

/-- The entity type of the C7 example. -/
def exUserTy : GoType := .tyStruct "User" []

/-- A route carrying the first `Req` sample. -/
def exRoute1 : APIRouteG := ⟨"/x", "POST", some exReq1, none⟩

/-- A route carrying the second `Req` sample. -/
def exRoute2 : APIRouteG := ⟨"/y", "POST", some exReq2, none⟩

/-- C7 counterexample: with two routes whose sample request types share the
resolved name `Req` but have different shapes, the stored definition is the
SECOND schema (which has no property `A`), not the first (which has `A`) —
so the first occurrence does NOT win. -/
theorem C7_counterexample :
    lookupA (collectDefinitions "User" exUserTy [exRoute1, exRoute2]) "Req"
      = some (generateSchema exReq2)
    ∧ lookupA (generateSchema exReq1).properties "A" ≠ none
    ∧ lookupA (generateSchema exReq2).properties "A" = none
    ∧ generateSchema exReq1 ≠ generateSchema exReq2 := by
  have h1 : lookupA (generateSchema exReq1).properties "A" ≠ none := by
    unfold exReq1
    rw [generateSchema_struct_lookup, List.reverse_cons, List.reverse_nil,
      List.nil_append, findSome?_singleton_oget]
    simp [contribValue, GoField.anonymous, GoField.jsonTag, resolveName,
      GoField.name]
  have h2 : lookupA (generateSchema exReq2).properties "A" = none := by
    unfold exReq2
    rw [generateSchema_struct_lookup]
    rfl
  refine ⟨?_, h1, h2, ?_⟩
  · rw [collectDefinitions, collect_fold_lookup]
    rw [show routeSamples "User" [exRoute1, exRoute2]
        = [("Req", generateSchema exReq1), ("Req", generateSchema exReq2)] by
      simp [routeSamples, exRoute1, exRoute2, sampleEntries, derefPtr, typeName,
        exReq1, exReq2]]
    rw [show lookupLastA [("Req", generateSchema exReq1),
        ("Req", generateSchema exReq2)] "Req" = some (generateSchema exReq2) by
      simp [lookupLastA, lookupA_cons]]
    simp [oget]
  · intro hc
    rw [hc] at h1
    exact h1 h2

/-- Witness for C7 (amended): evaluated at the example entity and routes;
the non-entity key `Req` resolves to the last sample's schema and the entity
seed survives. -/
theorem C7_amended_entity_seed_then_last_sample_wins_witness :
    lookupA (collectDefinitions "User" exUserTy [exRoute1, exRoute2]) "User"
      = some (generateSchema exUserTy)
    ∧ lookupA (collectDefinitions "User" exUserTy [exRoute1, exRoute2]) "Req"
      = lookupLastA (routeSamples "User" [exRoute1, exRoute2]) "Req" :=
  ⟨(C7_amended_entity_seed_then_last_sample_wins "User" exUserTy
      [exRoute1, exRoute2]).1,
   (C7_amended_entity_seed_then_last_sample_wins "User" exUserTy
      [exRoute1, exRoute2]).2 "Req" (by decide)⟩

end GoFastCrud
